import Mathlib

/-!
Verification of the two-level bucketed container in `DataStructure.cpp` /
`DataStructure.h` of the coursework repository.

Shallow embedding conventions:
- A C string (`char*`) is modelled as `Option (List Char)`: `none` is the
  null pointer, `some l` is a NUL-terminated string whose characters are `l`
  (the list never contains the NUL character, which cannot occur inside a
  C string).
- `std::map<char, Bucket>` is an association list sorted strictly ascending
  by key; `std::map::operator[]` inserts a default value keeping the order,
  `std::map::find` looks the key up without inserting.
- `Bucket = std::array<std::forward_list<Item>, 26>` is a `List (List Item)`
  of length 26 (the length is an invariant of every reachable state).
- Operations that throw (`operator+=`, `operator-=`) return the new state
  paired with `Option DSError`: `some e` is a thrown exception, and the
  state component is the container state at the moment of the throw.
- `strcmp(a, b) == 0` on non-null strings is equality of the character
  lists.  Every comparison the source performs has at least one operand
  that already parsed successfully (hence non-null); the model returns
  `false` when the other operand is the null pointer, a case the container
  invariant (see `DataStructure.WF`) shows is never reached for stored items.
-/

/-- The characters of a C string, or `none` for the null pointer. -/
abbrev CStr := List Char

/-- `ITEM1`-derived record: identifier string, numeric code, timestamp
string.  Only the identifier is ever inspected by the container. -/
structure Item where
  id : Option CStr
  code : Nat
  time : Option CStr
deriving DecidableEq, Repr

/-- `constexpr char FIRST_VALID_LETTER = 'A';` -/
def FIRST_VALID_LETTER : Char := 'A'

/-- `constexpr char LAST_VALID_LETTER = 'Z';` -/
def LAST_VALID_LETTER : Char := 'Z'

/-- `constexpr char WORD_SEPARATOR = ' ';` -/
def WORD_SEPARATOR : Char := ' '

/-- `std::strchr`: the suffix of `s` starting at the first occurrence of
`c`, or `none` when `c` does not occur. -/
def strchr : CStr → Char → Option CStr
  | [], _ => none
  | a :: rest, c => if a = c then some (a :: rest) else strchr rest c

/-- `tryParseItemIdentifier` (DataStructure.cpp lines 38-61): parse an
identifier into `(firstWordInitial, secondWordIndex)`, or `none` when the
identifier is invalid. -/
def tryParseItemIdentifier : Option CStr → Option (Char × Nat)
  | none => none
  | some s =>
    match s with
    | [] => none
    | firstWordInitial :: _ =>
      if firstWordInitial < FIRST_VALID_LETTER ∨ LAST_VALID_LETTER < firstWordInitial then
        none
      else
        match strchr s WORD_SEPARATOR with
        | none => none
        | some spacePosition =>
          match spacePosition with
          | [] => none
          | [_] => none
          | _ :: secondWordInitial :: _ =>
            if secondWordInitial < FIRST_VALID_LETTER ∨ LAST_VALID_LETTER < secondWordInitial then
              none
            else
              some (firstWordInitial, secondWordInitial.toNat - FIRST_VALID_LETTER.toNat)

/-- One collision chain: `std::forward_list<Item>`. -/
abbrev Chain := List Item

/-- `std::array<std::forward_list<Item>, 26>` (length-26 invariant carried
by `DataStructure.WF`). -/
abbrev Bucket := List Chain

/-- A default-constructed bucket: 26 empty chains. -/
def emptyBucket : Bucket := List.replicate 26 []

/-- Errors thrown by the container (`std::runtime_error` messages
"Invalid ID", "Item already exists", "Item not found"). -/
inductive DSError
  | invalidId
  | duplicateId
  | notFound
deriving DecidableEq, Repr

/-- `std::map::find`: look a key up, no insertion. -/
def mapFind : List (Char × Bucket) → Char → Option Bucket
  | [], _ => none
  | (k, b) :: rest, key => if key = k then some b else mapFind rest key

/-- `std::map::operator[]`: insert a default bucket if the key is absent,
keeping keys sorted ascending. -/
def mapIndex : List (Char × Bucket) → Char → List (Char × Bucket)
  | [], key => [(key, emptyBucket)]
  | (k, b) :: rest, key =>
    if key < k then (key, emptyBucket) :: (k, b) :: rest
    else if key = k then (k, b) :: rest
    else (k, b) :: mapIndex rest key

/-- Replace the chain at slot `sk` of the bucket stored under `key`. -/
def mapSetChain : List (Char × Bucket) → Char → Nat → Chain → List (Char × Bucket)
  | [], _, _, _ => []
  | (k, b) :: rest, key, sk, c =>
    if key = k then (k, b.set sk c) :: rest
    else (k, b) :: mapSetChain rest key sk c

/-- The container: `std::map<char, Bucket> mBuckets`. -/
structure DataStructure where
  mBuckets : List (Char × Bucket)
deriving DecidableEq, Repr

/-- A default-constructed container. -/
def DataStructure.empty : DataStructure := ⟨[]⟩

/-- The chain addressed by `(fk, sk)`; an absent bucket or an
out-of-range slot reads as the empty chain. -/
def DataStructure.chainAt (ds : DataStructure) (fk : Char) (sk : Nat) : Chain :=
  ((mapFind ds.mBuckets fk).getD emptyBucket).getD sk []

/-- `DataStructure::GetItemsNumber` (lines 66-74): total number of items
over every chain of every bucket. -/
def DataStructure.GetItemsNumber (ds : DataStructure) : Nat :=
  (ds.mBuckets.map (fun be => ((be.2.map List.length).sum))).sum

/-- `DataStructure::GetItem` (lines 78-100): parse, find the bucket, scan
the addressed chain for the first item whose identifier compares equal
(`std::find_if` with `strcmp == 0`). -/
def DataStructure.GetItem (ds : DataStructure) (itemIdentifier : Option CStr) : Option Item :=
  match tryParseItemIdentifier itemIdentifier with
  | none => none
  | some (fk, sk) =>
    match mapFind ds.mBuckets fk with
    | none => none
    | some bucket =>
      (bucket.getD sk []).find? (fun candidateItem => candidateItem.id == itemIdentifier)

/-- `DataStructure::operator+=` (lines 104-121): parse the item's
identifier, materialise the bucket (`operator[]`), scan the chain for a
duplicate, and on success push the item at the front.  The state component
of the result is the container state at return/throw time. -/
def DataStructure.insertItem (ds : DataStructure) (itemToAdd : Item) :
    DataStructure × Option DSError :=
  match tryParseItemIdentifier itemToAdd.id with
  | none => (ds, some .invalidId)
  | some (fk, sk) =>
    let m := mapIndex ds.mBuckets fk
    let itemList := ((mapFind m fk).getD emptyBucket).getD sk []
    if itemList.any (fun existingItem => existingItem.id == itemToAdd.id) then
      (⟨m⟩, some .duplicateId)
    else
      (⟨mapSetChain m fk sk (itemToAdd :: itemList)⟩, none)

/-- The erase loop of `operator-=` (lines 140-159): remove the first item
of the chain whose identifier matches, keeping the rest in order; `none`
when no item matches. -/
def eraseFirstMatch : Chain → CStr → Option Chain
  | [], _ => none
  | currentItem :: rest, identifier =>
    if currentItem.id == some identifier then some rest
    else
      match eraseFirstMatch rest identifier with
      | none => none
      | some rest' => some (currentItem :: rest')

/-- `DataStructure::operator-=` (lines 125-163): parse, find the bucket
(`std::map::find`, throwing "Item not found" when absent), then scan the
addressed chain and unlink the first match; "Item not found" when the scan
exhausts the chain.  (The source's `isBucketCompletelyEmpty` check has no
effect and is omitted.)  The inner `none` identifier branch is unreachable
because `tryParseItemIdentifier none = none`. -/
def DataStructure.removeItem (ds : DataStructure) (itemIdentifier : Option CStr) :
    DataStructure × Option DSError :=
  match tryParseItemIdentifier itemIdentifier with
  | none => (ds, some .invalidId)
  | some (fk, sk) =>
    match mapFind ds.mBuckets fk with
    | none => (ds, some .notFound)
    | some bucket =>
      match itemIdentifier with
      | none => (ds, some .notFound)
      | some s =>
        match eraseFirstMatch (bucket.getD sk []) s with
        | none => (ds, some .notFound)
        | some chain' => (⟨mapSetChain ds.mBuckets fk sk chain'⟩, none)

/-- `operator<<` (lines 166-174): the enumeration order — buckets in map
order, chains in slot order, items front to back. -/
def DataStructure.toList (ds : DataStructure) : List Item :=
  (ds.mBuckets.map (fun be => be.2.flatten)).flatten

/-- One client call that mutates the container. -/
inductive Op
  | ins (it : Item)
  | del (id : Option CStr)

/-- Apply one operation. -/
def applyOp (ds : DataStructure) : Op → DataStructure × Option DSError
  | .ins it => ds.insertItem it
  | .del id => ds.removeItem id

/-- Run a sequence of operations, keeping only the final state. -/
def runOps (ds : DataStructure) : List Op → DataStructure
  | [] => ds
  | op :: rest => runOps (applyOp ds op).1 rest

/-- Count the successful inserts and successful removes along a run. -/
def succCounts (ds : DataStructure) : List Op → Nat × Nat
  | [] => (0, 0)
  | op :: rest =>
    let r := applyOp ds op
    let nm := succCounts r.1 rest
    match op, r.2 with
    | .ins _, none => (nm.1 + 1, nm.2)
    | .del _, none => (nm.1, nm.2 + 1)
    | _, some _ => nm

/-- Container states reachable from the default-constructed container by
any sequence of `operator+=` / `operator-=` calls (failing calls leave the
state they produced, which the theorems below show equals the prior
state). -/
inductive Reachable : DataStructure → Prop
  | empty : Reachable DataStructure.empty
  | insert (ds : DataStructure) (it : Item) : Reachable ds → Reachable (ds.insertItem it).1
  | remove (ds : DataStructure) (id : Option CStr) :
      Reachable ds → Reachable (ds.removeItem id).1

/-- The structural invariant of reachable containers: keys strictly
ascending, every bucket of size 26, every item stored in exactly the chain
its own identifier parses to, and no two items of one chain sharing an
identifier. -/
structure DataStructure.WF (ds : DataStructure) : Prop where
  sorted : ds.mBuckets.Pairwise (fun a b => a.1 < b.1)
  blen : ∀ be ∈ ds.mBuckets, be.2.length = 26
  placed : ∀ be ∈ ds.mBuckets, ∀ sk : Nat, ∀ it ∈ be.2.getD sk [],
    tryParseItemIdentifier it.id = some (be.1, sk)
  chainNodup : ∀ be ∈ ds.mBuckets, ∀ sk : Nat, ((be.2.getD sk []).map Item.id).Nodup

/-- The address ordering that enumeration respects: buckets ascending by
first-level key, then chains ascending by second-level key. -/
def addrLE (a b : Item) : Prop :=
  ∃ p q, tryParseItemIdentifier a.id = some p ∧ tryParseItemIdentifier b.id = some q ∧
    (p.1 < q.1 ∨ (p.1 = q.1 ∧ p.2 ≤ q.2))

/-- Concrete records used by the spec's worked examples. -/
def itemBetaZed : Item := ⟨some "Beta Zed".data, 0, none⟩

/-- See `itemBetaZed`. -/
def itemAlphaYoung : Item := ⟨some "Alpha Young".data, 0, none⟩

/-- See `itemBetaZed`. -/
def itemAlphaApple : Item := ⟨some "Alpha Apple".data, 0, none⟩

/-- See `itemBetaZed`. -/
def itemAlphaYellow : Item := ⟨some "Alpha Yellow".data, 0, none⟩

/-- See `itemBetaZed`. -/
def itemCafeNoir : Item := ⟨some "Cafe Noir".data, 0, none⟩

/-! ### Parser lemmas -/

theorem strchr_eq_none_iff (s : CStr) (c : Char) : strchr s c = none ↔ c ∉ s := by
  induction s with
  | nil => simp [strchr]
  | cons a rest ih =>
    by_cases h : a = c
    · subst h
      simp [strchr]
    · simp [strchr, h, ih, Ne.symm h]

theorem strchr_append_not_mem (p u : CStr) (c : Char) (hp : c ∉ p) :
    strchr (p ++ c :: u) c = some (c :: u) := by
  induction p with
  | nil => simp [strchr]
  | cons a rest ih =>
    have ha : ¬a = c := fun h => hp (h ▸ List.mem_cons_self a rest)
    simpa [strchr, ha] using ih (fun h => hp (List.mem_cons_of_mem a h))

theorem strchr_some_decomp (s t : CStr) (c : Char) (h : strchr s c = some t) :
    ∃ p u, s = p ++ c :: u ∧ c ∉ p ∧ t = c :: u := by
  induction s with
  | nil => simp [strchr] at h
  | cons a rest ih =>
    by_cases ha : a = c
    · subst ha
      simp [strchr] at h
      exact ⟨[], rest, rfl, by simp, h.symm⟩
    · simp [strchr, ha] at h
      obtain ⟨p, u, hs, hpn, ht⟩ := ih h
      exact ⟨a :: p, u, by simp [hs], by
        simp only [List.mem_cons, not_or]
        exact ⟨Ne.symm ha, hpn⟩, ht⟩

theorem char_invalid_iff (c : Char) :
    (c < FIRST_VALID_LETTER ∨ LAST_VALID_LETTER < c) ↔
      ¬(FIRST_VALID_LETTER ≤ c ∧ c ≤ LAST_VALID_LETTER) := by
  rw [not_and_or, not_le, not_le]

theorem parse_fail_iff (s : CStr) :
    tryParseItemIdentifier (some s) = none ↔
      s = []
      ∨ (∃ c t, s = c :: t ∧ ¬(FIRST_VALID_LETTER ≤ c ∧ c ≤ LAST_VALID_LETTER))
      ∨ WORD_SEPARATOR ∉ s
      ∨ (∃ p, s = p ++ [WORD_SEPARATOR] ∧ WORD_SEPARATOR ∉ p)
      ∨ (∃ p d u, s = p ++ WORD_SEPARATOR :: d :: u ∧ WORD_SEPARATOR ∉ p
          ∧ ¬(FIRST_VALID_LETTER ≤ d ∧ d ≤ LAST_VALID_LETTER)) := by
  cases s with
  | nil => simp [tryParseItemIdentifier]
  | cons c t =>
    constructor
    · intro h
      by_cases hc : c < FIRST_VALID_LETTER ∨ LAST_VALID_LETTER < c
      · exact Or.inr (Or.inl ⟨c, t, rfl, (char_invalid_iff c).mp hc⟩)
      · cases hsp : strchr (c :: t) WORD_SEPARATOR with
        | none =>
          exact Or.inr (Or.inr (Or.inl ((strchr_eq_none_iff _ _).mp hsp)))
        | some sp =>
          obtain ⟨p, u, hs, hpn, hspu⟩ := strchr_some_decomp _ _ _ hsp
          subst hspu
          cases u with
          | nil => exact Or.inr (Or.inr (Or.inr (Or.inl ⟨p, hs, hpn⟩)))
          | cons d u' =>
            by_cases hd : d < FIRST_VALID_LETTER ∨ LAST_VALID_LETTER < d
            · exact Or.inr (Or.inr (Or.inr (Or.inr
                ⟨p, d, u', hs, hpn, (char_invalid_iff d).mp hd⟩)))
            · simp [tryParseItemIdentifier, hc, hsp, hd] at h
    · intro h
      rcases h with h | ⟨c', t', heq, hc'⟩ | h | ⟨p, hs, hpn⟩ | ⟨p, d, u, hs, hpn, hd⟩
      · simp at h
      · injection heq with h1 h2
        subst h1
        simp [tryParseItemIdentifier, (char_invalid_iff c).mpr hc']
      · by_cases hc : c < FIRST_VALID_LETTER ∨ LAST_VALID_LETTER < c
        · simp [tryParseItemIdentifier, hc]
        · simp [tryParseItemIdentifier, hc, (strchr_eq_none_iff _ _).mpr h]
      · have hsp : strchr (c :: t) WORD_SEPARATOR = some [WORD_SEPARATOR] := by
          rw [hs]
          exact strchr_append_not_mem p [] WORD_SEPARATOR hpn
        by_cases hc : c < FIRST_VALID_LETTER ∨ LAST_VALID_LETTER < c
        · simp [tryParseItemIdentifier, hc]
        · simp [tryParseItemIdentifier, hc, hsp]
      · have hsp : strchr (c :: t) WORD_SEPARATOR = some (WORD_SEPARATOR :: d :: u) := by
          rw [hs]
          exact strchr_append_not_mem p (d :: u) WORD_SEPARATOR hpn
        by_cases hc : c < FIRST_VALID_LETTER ∨ LAST_VALID_LETTER < c
        · simp [tryParseItemIdentifier, hc]
        · simp [tryParseItemIdentifier, hc, hsp, (char_invalid_iff d).mpr hd]

theorem parse_some_spec (s : CStr) (fk : Char) (sk : Nat)
    (h : tryParseItemIdentifier (some s) = some (fk, sk)) :
    s.head? = some fk ∧ FIRST_VALID_LETTER ≤ fk ∧ fk ≤ LAST_VALID_LETTER ∧
    ∃ p d u, s = p ++ WORD_SEPARATOR :: d :: u ∧ WORD_SEPARATOR ∉ p ∧
      FIRST_VALID_LETTER ≤ d ∧ d ≤ LAST_VALID_LETTER ∧
      sk = d.toNat - FIRST_VALID_LETTER.toNat ∧ sk ≤ 25 := by
  cases s with
  | nil => simp [tryParseItemIdentifier] at h
  | cons c t =>
    by_cases hc : c < FIRST_VALID_LETTER ∨ LAST_VALID_LETTER < c
    · simp [tryParseItemIdentifier, hc] at h
    · cases hsp : strchr (c :: t) WORD_SEPARATOR with
      | none => simp [tryParseItemIdentifier, hc, hsp] at h
      | some sp =>
        obtain ⟨p, u, hs, hpn, hspu⟩ := strchr_some_decomp _ _ _ hsp
        subst hspu
        cases u with
        | nil => simp [tryParseItemIdentifier, hc, hsp] at h
        | cons d u' =>
          by_cases hd : d < FIRST_VALID_LETTER ∨ LAST_VALID_LETTER < d
          · simp [tryParseItemIdentifier, hc, hsp, hd] at h
          · simp [tryParseItemIdentifier, hc, hsp, hd] at h
            obtain ⟨hfk, hsk⟩ := h
            subst hfk
            push_neg at hc hd
            have hd65 : 65 ≤ d.toNat := by
              have := hd.1
              rw [FIRST_VALID_LETTER, Char.le_def, UInt32.le_def, BitVec.le_def] at this
              exact this
            have hd90 : d.toNat ≤ 90 := by
              have := hd.2
              rw [LAST_VALID_LETTER, Char.le_def, UInt32.le_def, BitVec.le_def] at this
              exact this
            refine ⟨rfl, hc.1, hc.2, p, d, u', hs, hpn, hd.1, hd.2, hsk.symm, ?_⟩
            subst hsk
            have h65 : FIRST_VALID_LETTER.toNat = 65 := rfl
            omega

theorem parse_some_id_shape (id : Option CStr) (fk : Char) (sk : Nat)
    (h : tryParseItemIdentifier id = some (fk, sk)) :
    ∃ s, id = some s ∧ s ≠ [] := by
  cases id with
  | none => simp [tryParseItemIdentifier] at h
  | some s =>
    refine ⟨s, rfl, ?_⟩
    rintro rfl
    simp [tryParseItemIdentifier] at h

theorem parse_sk_le (id : Option CStr) (fk : Char) (sk : Nat)
    (h : tryParseItemIdentifier id = some (fk, sk)) : sk ≤ 25 := by
  obtain ⟨s, rfl, -⟩ := parse_some_id_shape id fk sk h
  exact (parse_some_spec s fk sk h).2.2.2.choose_spec.choose_spec.choose_spec.2.2.2.2.2

/-! ### Association-list (std::map) lemmas -/

theorem mapFind_eq_none_iff (m : List (Char × Bucket)) (k : Char) :
    mapFind m k = none ↔ k ∉ m.map Prod.fst := by
  induction m with
  | nil => simp [mapFind]
  | cons be rest ih =>
    obtain ⟨k', b⟩ := be
    by_cases h : k = k'
    · subst h
      simp [mapFind]
    · simp [mapFind, h, ih]

theorem mapFind_some_mem (m : List (Char × Bucket)) (k : Char) (b : Bucket)
    (h : mapFind m k = some b) : (k, b) ∈ m := by
  induction m with
  | nil => simp [mapFind] at h
  | cons be rest ih =>
    obtain ⟨k', b'⟩ := be
    by_cases hk : k = k'
    · subst hk
      simp [mapFind] at h
      simp [h]
    · simp [mapFind, hk] at h
      exact List.mem_cons_of_mem _ (ih h)

theorem mapFind_eq_of_mem (m : List (Char × Bucket)) (k : Char) (b : Bucket)
    (hs : m.Pairwise (fun a b => a.1 < b.1)) (hm : (k, b) ∈ m) :
    mapFind m k = some b := by
  induction m with
  | nil => simp at hm
  | cons be rest ih =>
    obtain ⟨k', b'⟩ := be
    rcases List.mem_cons.mp hm with h | h
    · cases h
      simp [mapFind]
    · have hk : k ≠ k' := by
        intro hk
        subst hk
        have := (List.pairwise_cons.mp hs).1 _ h
        exact lt_irrefl k this
      simp [mapFind, hk]
      exact ih (List.pairwise_cons.mp hs).2 h

theorem mem_mapIndex (m : List (Char × Bucket)) (k : Char) (be : Char × Bucket)
    (h : be ∈ mapIndex m k) : be = (k, emptyBucket) ∨ be ∈ m := by
  induction m with
  | nil => simpa [mapIndex] using h
  | cons hd rest ih =>
    obtain ⟨k', b'⟩ := hd
    by_cases h1 : k < k'
    · simp [mapIndex, h1] at h
      rcases h with h | h | h
      · exact Or.inl (by simp [h])
      · exact Or.inr (by simp [h])
      · exact Or.inr (List.mem_cons_of_mem _ h)
    · by_cases h2 : k = k'
      · simp [mapIndex, h1, h2] at h
        rcases h with h | h
        · exact Or.inr (by simp [h])
        · exact Or.inr (List.mem_cons_of_mem _ h)
      · simp only [mapIndex, if_neg h1, if_neg h2, List.mem_cons] at h
        rcases h with h | h
        · exact Or.inr (by simp [h])
        · rcases ih h with h | h
          · exact Or.inl h
          · exact Or.inr (List.mem_cons_of_mem _ h)

theorem mapIndex_of_mapFind_some (m : List (Char × Bucket)) (k : Char) (b : Bucket)
    (hs : m.Pairwise (fun a b => a.1 < b.1)) (h : mapFind m k = some b) :
    mapIndex m k = m := by
  induction m with
  | nil => simp [mapFind] at h
  | cons hd rest ih =>
    obtain ⟨k', b'⟩ := hd
    by_cases hk : k = k'
    · subst hk
      simp [mapIndex]
    · simp [mapFind, hk] at h
      have hmem := mapFind_some_mem rest k b h
      have hkk' : k' < k := (List.pairwise_cons.mp hs).1 _ hmem
      have h1 : ¬k < k' := not_lt.mpr (le_of_lt hkk')
      simp [mapIndex, h1, hk]
      exact ih (List.pairwise_cons.mp hs).2 h

theorem mapFind_mapIndex_self_of_none (m : List (Char × Bucket)) (k : Char)
    (h : mapFind m k = none) : mapFind (mapIndex m k) k = some emptyBucket := by
  induction m with
  | nil => simp [mapIndex, mapFind]
  | cons hd rest ih =>
    obtain ⟨k', b'⟩ := hd
    by_cases hk : k = k'
    · subst hk
      simp [mapFind] at h
    · simp [mapFind, hk] at h
      by_cases h1 : k < k'
      · simp [mapIndex, h1, mapFind]
      · simp [mapIndex, h1, hk, mapFind]
        exact ih h

theorem mapFind_mapIndex_ne (m : List (Char × Bucket)) (k k' : Char) (hne : k' ≠ k) :
    mapFind (mapIndex m k) k' = mapFind m k' := by
  induction m with
  | nil => simp [mapIndex, mapFind, hne]
  | cons hd rest ih =>
    obtain ⟨k'', b⟩ := hd
    by_cases h1 : k < k''
    · simp [mapIndex, h1, mapFind, hne]
    · by_cases h2 : k = k''
      · simp [mapIndex, h1, h2, mapFind]
      · by_cases h3 : k' = k''
        · simp [mapIndex, h1, h2, mapFind, h3]
        · simp [mapIndex, h1, h2, mapFind, h3]
          exact ih

theorem mapIndex_sorted (m : List (Char × Bucket)) (k : Char)
    (hs : m.Pairwise (fun a b => a.1 < b.1)) :
    (mapIndex m k).Pairwise (fun a b => a.1 < b.1) := by
  induction m with
  | nil => simp [mapIndex]
  | cons hd rest ih =>
    obtain ⟨k', b⟩ := hd
    obtain ⟨hhd, hrest⟩ := List.pairwise_cons.mp hs
    by_cases h1 : k < k'
    · simp only [mapIndex, if_pos h1]
      refine List.pairwise_cons.mpr ⟨?_, hs⟩
      intro be hbe
      rcases List.mem_cons.mp hbe with h | h
      · simp [h, h1]
      · exact lt_trans h1 (hhd _ h)
    · by_cases h2 : k = k'
      · simpa [mapIndex, h1, h2] using hs
      · simp only [mapIndex, if_neg h1, if_neg h2]
        refine List.pairwise_cons.mpr ⟨?_, ih hrest⟩
        intro be hbe
        rcases mem_mapIndex _ _ _ hbe with h | h
        · have : k' < k := by
            rcases lt_trichotomy k k' with h | h | h
            · exact absurd h h1
            · exact absurd h h2
            · exact h
          simp [h, this]
        · exact hhd _ h

theorem mem_mapSetChain (m : List (Char × Bucket)) (k : Char) (sk : Nat) (c : Chain)
    (be : Char × Bucket) (h : be ∈ mapSetChain m k sk c) :
    be ∈ m ∨ ∃ b, (k, b) ∈ m ∧ be = (k, b.set sk c) := by
  induction m with
  | nil => simp [mapSetChain] at h
  | cons hd rest ih =>
    obtain ⟨k', b'⟩ := hd
    by_cases hk : k = k'
    · subst hk
      simp only [mapSetChain, if_pos rfl] at h
      cases List.mem_cons.mp h with
      | inl heq => exact Or.inr ⟨b', List.mem_cons_self _ _, heq⟩
      | inr hm => exact Or.inl (List.mem_cons_of_mem _ hm)
    · simp only [mapSetChain, if_neg hk] at h
      cases List.mem_cons.mp h with
      | inl heq => exact Or.inl (heq ▸ List.mem_cons_self _ _)
      | inr hm =>
        rcases ih hm with h' | ⟨b, hb, hbe⟩
        · exact Or.inl (List.mem_cons_of_mem _ h')
        · exact Or.inr ⟨b, List.mem_cons_of_mem _ hb, hbe⟩

theorem mapSetChain_keys (m : List (Char × Bucket)) (k : Char) (sk : Nat) (c : Chain) :
    (mapSetChain m k sk c).map Prod.fst = m.map Prod.fst := by
  induction m with
  | nil => simp [mapSetChain]
  | cons hd rest ih =>
    obtain ⟨k', b'⟩ := hd
    by_cases hk : k = k'
    · simp [mapSetChain, hk]
    · simp [mapSetChain, hk, ih]

theorem mapSetChain_sorted (m : List (Char × Bucket)) (k : Char) (sk : Nat) (c : Chain)
    (hs : m.Pairwise (fun a b => a.1 < b.1)) :
    (mapSetChain m k sk c).Pairwise (fun a b => a.1 < b.1) := by
  induction m with
  | nil => simp [mapSetChain]
  | cons hd rest ih =>
    obtain ⟨k', b'⟩ := hd
    obtain ⟨hhd, hrest⟩ := List.pairwise_cons.mp hs
    by_cases hk : k = k'
    · simp only [mapSetChain, if_pos hk]
      exact List.pairwise_cons.mpr ⟨fun be hbe => hhd _ hbe, hrest⟩
    · simp only [mapSetChain, if_neg hk]
      refine List.pairwise_cons.mpr ⟨?_, ih hrest⟩
      intro be hbe
      rcases mem_mapSetChain _ _ _ _ _ hbe with h | ⟨b, hb, hbe'⟩
      · exact hhd _ h
      · have := hhd _ hb
        simp [hbe', this]

theorem mapFind_mapSetChain_self (m : List (Char × Bucket)) (k : Char) (sk : Nat)
    (c : Chain) (b : Bucket) (h : mapFind m k = some b) :
    mapFind (mapSetChain m k sk c) k = some (b.set sk c) := by
  induction m with
  | nil => simp [mapFind] at h
  | cons hd rest ih =>
    obtain ⟨k', b'⟩ := hd
    by_cases hk : k = k'
    · subst hk
      simp [mapFind] at h
      simp [mapSetChain, mapFind, h]
    · simp [mapFind, hk] at h
      simp [mapSetChain, mapFind, hk]
      exact ih h

theorem mapFind_mapSetChain_ne (m : List (Char × Bucket)) (k k' : Char) (sk : Nat)
    (c : Chain) (hne : k' ≠ k) :
    mapFind (mapSetChain m k sk c) k' = mapFind m k' := by
  induction m with
  | nil => simp [mapSetChain]
  | cons hd rest ih =>
    obtain ⟨k'', b⟩ := hd
    by_cases hk : k = k''
    · subst hk
      simp [mapSetChain, mapFind, hne]
    · by_cases hk' : k' = k''
      · simp [mapSetChain, mapFind, hk, hk']
      · simp [mapSetChain, mapFind, hk, hk']
        exact ih

/-! ### Bucket and counting lemmas -/

theorem emptyBucket_getD (sk : Nat) : emptyBucket.getD sk [] = ([] : Chain) := by
  rw [emptyBucket, List.getD_eq_getElem?_getD, List.getElem?_replicate]
  by_cases h : sk < 26 <;> simp [h]

theorem emptyBucket_length : emptyBucket.length = 26 := rfl

theorem getD_set_self (b : Bucket) (sk : Nat) (c : Chain) (h : sk < b.length) :
    (b.set sk c).getD sk [] = c := by
  rw [List.getD_eq_getElem?_getD, List.getElem?_set_self h]
  rfl

theorem getD_set_ne (b : Bucket) (sk sk' : Nat) (c : Chain) (h : sk' ≠ sk) :
    (b.set sk c).getD sk' [] = b.getD sk' [] := by
  rw [List.getD_eq_getElem?_getD, List.getD_eq_getElem?_getD,
    List.getElem?_set_ne (fun he => h he.symm)]

theorem sum_lengths_set (b : Bucket) (sk : Nat) (c : Chain) (h : sk < b.length) :
    ((b.set sk c).map List.length).sum + (b.getD sk []).length
      = (b.map List.length).sum + c.length := by
  induction b generalizing sk with
  | nil => simp at h
  | cons hd rest ih =>
    cases sk with
    | zero => simp [List.set, List.getD]; omega
    | succ n =>
      have hn : n < rest.length := by simpa using h
      have := ih n hn
      simp only [List.set, List.map_cons, List.sum_cons, List.getD_cons_succ]
      omega

theorem count_mapIndex (m : List (Char × Bucket)) (k : Char) :
    DataStructure.GetItemsNumber ⟨mapIndex m k⟩ = DataStructure.GetItemsNumber ⟨m⟩ := by
  induction m with
  | nil => simp [mapIndex, DataStructure.GetItemsNumber, emptyBucket]
  | cons hd rest ih =>
    obtain ⟨k', b⟩ := hd
    by_cases h1 : k < k'
    · simp [mapIndex, h1, DataStructure.GetItemsNumber, emptyBucket]
    · by_cases h2 : k = k'
      · simp [mapIndex, h1, h2]
      · simp only [mapIndex, if_neg h1, if_neg h2]
        simp only [DataStructure.GetItemsNumber, List.map_cons, List.sum_cons] at *
        omega

theorem count_mapSetChain (m : List (Char × Bucket)) (k : Char) (sk : Nat) (c : Chain)
    (b : Bucket) (hf : mapFind m k = some b) (hsk : sk < b.length) :
    DataStructure.GetItemsNumber ⟨mapSetChain m k sk c⟩ + (b.getD sk []).length
      = DataStructure.GetItemsNumber ⟨m⟩ + c.length := by
  induction m with
  | nil => simp [mapFind] at hf
  | cons hd rest ih =>
    obtain ⟨k', b'⟩ := hd
    by_cases hk : k = k'
    · subst hk
      have hb : b' = b := by simpa [mapFind] using hf
      subst hb
      simp [mapSetChain, DataStructure.GetItemsNumber]
      have := sum_lengths_set b' sk c hsk
      simp at this
      omega
    · simp only [mapFind, if_neg hk] at hf
      simp only [mapSetChain, if_neg hk, DataStructure.GetItemsNumber, List.map_cons,
        List.sum_cons]
      have := ih hf
      simp only [DataStructure.GetItemsNumber] at this
      omega

theorem toList_mapIndex (m : List (Char × Bucket)) (k : Char) :
    DataStructure.toList ⟨mapIndex m k⟩ = DataStructure.toList ⟨m⟩ := by
  induction m with
  | nil => simp [mapIndex, DataStructure.toList, emptyBucket]
  | cons hd rest ih =>
    obtain ⟨k', b⟩ := hd
    by_cases h1 : k < k'
    · simp [mapIndex, h1, DataStructure.toList, emptyBucket]
    · by_cases h2 : k = k'
      · simp [mapIndex, h1, h2]
      · simp only [mapIndex, if_neg h1, if_neg h2]
        simp only [DataStructure.toList, List.map_cons, List.flatten_cons] at *
        rw [ih]

/-! ### Erase-loop lemmas -/

theorem eraseFirstMatch_none_iff (c : Chain) (s : CStr) :
    eraseFirstMatch c s = none ↔ ∀ it ∈ c, it.id ≠ some s := by
  induction c with
  | nil => simp [eraseFirstMatch]
  | cons hd rest ih =>
    by_cases h : hd.id = some s
    · simp [eraseFirstMatch, h]
    · have hb : (hd.id == some s) = false := beq_false_of_ne h
      simp only [eraseFirstMatch, hb, Bool.false_eq_true, if_false]
      cases he : eraseFirstMatch rest s with
      | none =>
        simp only [he]
        refine ⟨fun _ => ?_, fun _ => trivial⟩
        intro it hit
        rcases List.mem_cons.mp hit with hit | hit
        · exact hit ▸ h
        · exact (ih.mp he) it hit
      | some c' =>
        simp only []
        constructor
        · intro hc
          simp at hc
        · intro hall
          rw [ih.mpr (fun it hit => hall it (List.mem_cons_of_mem _ hit))] at he
          simp at he

theorem eraseFirstMatch_some_decomp (c : Chain) (s : CStr) (c' : Chain)
    (h : eraseFirstMatch c s = some c') :
    ∃ pre x post, c = pre ++ x :: post ∧ c' = pre ++ post ∧ x.id = some s ∧
      ∀ y ∈ pre, y.id ≠ some s := by
  induction c generalizing c' with
  | nil => simp [eraseFirstMatch] at h
  | cons hd rest ih =>
    by_cases hid : hd.id = some s
    · have hb : (hd.id == some s) = true := beq_iff_eq.mpr hid
      simp only [eraseFirstMatch, hb, if_true, Option.some.injEq] at h
      exact ⟨[], hd, rest, rfl, by simp [h.symm], hid, by simp⟩
    · have hb : (hd.id == some s) = false := beq_false_of_ne hid
      simp only [eraseFirstMatch, hb, Bool.false_eq_true, if_false] at h
      cases he : eraseFirstMatch rest s with
      | none => rw [he] at h; simp at h
      | some r' =>
        rw [he] at h
        simp only [Option.some.injEq] at h
        obtain ⟨pre, x, post, hc, hr, hx, hpre⟩ := ih r' he
        refine ⟨hd :: pre, x, post, by simp [hc], by simp [h.symm, hr], hx, ?_⟩
        intro y hy
        rcases List.mem_cons.mp hy with hy | hy
        · exact hy ▸ hid
        · exact hpre y hy

/-! ### Derived facts about the container state -/

theorem mapFind_mapIndex_self (m : List (Char × Bucket)) (k : Char)
    (hs : m.Pairwise (fun a b => a.1 < b.1)) :
    mapFind (mapIndex m k) k = some ((mapFind m k).getD emptyBucket) := by
  cases hf : mapFind m k with
  | none => simpa using mapFind_mapIndex_self_of_none m k hf
  | some b =>
    rw [mapIndex_of_mapFind_some m k b hs hf, hf]
    rfl

theorem mapIndex_keys_superset (m : List (Char × Bucket)) (k : Char) :
    m.map Prod.fst ⊆ (mapIndex m k).map Prod.fst := by
  induction m with
  | nil => simp
  | cons hd rest ih =>
    obtain ⟨k', b⟩ := hd
    by_cases h1 : k < k'
    · simp [mapIndex, h1]
    · by_cases h2 : k = k'
      · simp [mapIndex, h1, h2]
      · simp only [mapIndex, if_neg h1, if_neg h2, List.map_cons]
        intro a ha
        rcases List.mem_cons.mp ha with ha | ha
        · exact ha ▸ List.mem_cons_self _ _
        · exact List.mem_cons_of_mem _ (ih ha)

theorem bucket_length_26 (ds : DataStructure) (wf : ds.WF) (fk : Char) :
    ((mapFind ds.mBuckets fk).getD emptyBucket).length = 26 := by
  cases hf : mapFind ds.mBuckets fk with
  | none => simp [emptyBucket_length]
  | some b => simpa using wf.blen _ (mapFind_some_mem _ _ _ hf)

theorem chainAt_placed (ds : DataStructure) (wf : ds.WF) (fk : Char) (sk : Nat) :
    ∀ x ∈ ds.chainAt fk sk, tryParseItemIdentifier x.id = some (fk, sk) := by
  intro x hx
  rw [DataStructure.chainAt] at hx
  cases hf : mapFind ds.mBuckets fk with
  | none =>
    rw [hf] at hx
    have h0 : (Option.getD (none : Option Bucket) emptyBucket).getD sk [] = ([] : Chain) :=
      emptyBucket_getD sk
    rw [h0] at hx
    simp at hx
  | some b =>
    rw [hf] at hx
    exact wf.placed (fk, b) (mapFind_some_mem _ _ _ hf) sk x hx

theorem chainAt_nodup (ds : DataStructure) (wf : ds.WF) (fk : Char) (sk : Nat) :
    ((ds.chainAt fk sk).map Item.id).Nodup := by
  rw [DataStructure.chainAt]
  cases hf : mapFind ds.mBuckets fk with
  | none =>
    have h0 : (Option.getD (none : Option Bucket) emptyBucket).getD sk [] = ([] : Chain) :=
      emptyBucket_getD sk
    rw [h0]
    simp
  | some b => exact wf.chainNodup (fk, b) (mapFind_some_mem _ _ _ hf) sk

theorem insert_reads_chainAt (ds : DataStructure) (fk : Char) (sk : Nat)
    (hs : ds.mBuckets.Pairwise (fun a b => a.1 < b.1)) :
    ((mapFind (mapIndex ds.mBuckets fk) fk).getD emptyBucket).getD sk []
      = ds.chainAt fk sk := by
  rw [mapFind_mapIndex_self ds.mBuckets fk hs]
  rfl

theorem GetItem_eq_find (ds : DataStructure) (id : Option CStr) (fk : Char) (sk : Nat)
    (hp : tryParseItemIdentifier id = some (fk, sk))
    (hb : mapFind ds.mBuckets fk ≠ none) :
    ds.GetItem id = (ds.chainAt fk sk).find? (fun c => c.id == id) := by
  cases hf : mapFind ds.mBuckets fk with
  | none => exact absurd hf hb
  | some b => simp [DataStructure.GetItem, hp, hf, DataStructure.chainAt]

theorem wf_empty : DataStructure.empty.WF := by
  refine ⟨?_, ?_, ?_, ?_⟩ <;> simp [DataStructure.empty]

/-! ### Case analysis of `operator+=` -/

theorem insert_parse_fail (ds : DataStructure) (it : Item)
    (hp : tryParseItemIdentifier it.id = none) :
    ds.insertItem it = (ds, some .invalidId) := by
  simp [DataStructure.insertItem, hp]

theorem insert_dup_eq (ds : DataStructure) (it : Item) (fk : Char) (sk : Nat)
    (hs : ds.mBuckets.Pairwise (fun a b => a.1 < b.1))
    (hp : tryParseItemIdentifier it.id = some (fk, sk))
    (hdup : (ds.chainAt fk sk).any (fun e => e.id == it.id) = true) :
    ds.insertItem it = (ds, some .duplicateId) := by
  obtain ⟨b, hf⟩ : ∃ b, mapFind ds.mBuckets fk = some b := by
    cases hf : mapFind ds.mBuckets fk with
    | some b => exact ⟨b, rfl⟩
    | none =>
      exfalso
      have hnil : ds.chainAt fk sk = [] := by
        rw [DataStructure.chainAt, hf]
        exact emptyBucket_getD sk
      rw [hnil] at hdup
      simp at hdup
  simp only [DataStructure.insertItem, hp]
  rw [insert_reads_chainAt ds fk sk hs, hdup]
  simp [mapIndex_of_mapFind_some _ _ _ hs hf]

theorem insert_ok_eq (ds : DataStructure) (it : Item) (fk : Char) (sk : Nat)
    (hs : ds.mBuckets.Pairwise (fun a b => a.1 < b.1))
    (hp : tryParseItemIdentifier it.id = some (fk, sk))
    (hnd : (ds.chainAt fk sk).any (fun e => e.id == it.id) = false) :
    ds.insertItem it
      = (⟨mapSetChain (mapIndex ds.mBuckets fk) fk sk (it :: ds.chainAt fk sk)⟩, none) := by
  simp only [DataStructure.insertItem, hp]
  rw [insert_reads_chainAt ds fk sk hs, hnd]
  simp

theorem insert_fail_spec (ds : DataStructure) (it : Item) (ds' : DataStructure) (e : DSError)
    (wf : ds.WF) (h : ds.insertItem it = (ds', some e)) : ds' = ds := by
  cases hp : tryParseItemIdentifier it.id with
  | none =>
    rw [insert_parse_fail ds it hp] at h
    exact (Prod.mk.injEq .. ▸ h).1.symm
  | some p =>
    obtain ⟨fk, sk⟩ := p
    cases hdup : (ds.chainAt fk sk).any (fun e => e.id == it.id) with
    | true =>
      rw [insert_dup_eq ds it fk sk wf.sorted hp hdup] at h
      exact (Prod.mk.injEq .. ▸ h).1.symm
    | false =>
      rw [insert_ok_eq ds it fk sk wf.sorted hp hdup] at h
      exact absurd (Prod.mk.injEq .. ▸ h).2 (by simp)

theorem insert_ok_spec (ds : DataStructure) (it : Item) (ds' : DataStructure)
    (wf : ds.WF) (h : ds.insertItem it = (ds', none)) :
    ∃ fk sk, tryParseItemIdentifier it.id = some (fk, sk) ∧
      (∀ e ∈ ds.chainAt fk sk, e.id ≠ it.id) ∧
      ds'.chainAt fk sk = it :: ds.chainAt fk sk ∧
      (∀ fk' sk', ¬(fk' = fk ∧ sk' = sk) → ds'.chainAt fk' sk' = ds.chainAt fk' sk') ∧
      ds'.GetItemsNumber = ds.GetItemsNumber + 1 ∧
      (∀ a ∈ ds.mBuckets.map Prod.fst, a ∈ ds'.mBuckets.map Prod.fst) ∧
      mapFind ds'.mBuckets fk ≠ none ∧
      ds'.WF := by
  cases hp : tryParseItemIdentifier it.id with
  | none =>
    rw [insert_parse_fail ds it hp] at h
    exact absurd (Prod.mk.injEq .. ▸ h).2 (by simp)
  | some p =>
    obtain ⟨fk, sk⟩ := p
    cases hdup : (ds.chainAt fk sk).any (fun e => e.id == it.id) with
    | true =>
      rw [insert_dup_eq ds it fk sk wf.sorted hp hdup] at h
      exact absurd (Prod.mk.injEq .. ▸ h).2 (by simp)
    | false =>
      rw [insert_ok_eq ds it fk sk wf.sorted hp hdup] at h
      have hds' : ds'
          = ⟨mapSetChain (mapIndex ds.mBuckets fk) fk sk (it :: ds.chainAt fk sk)⟩ :=
        (Prod.mk.injEq .. ▸ h).1.symm
      subst hds'
      have hfm : mapFind (mapIndex ds.mBuckets fk) fk
          = some ((mapFind ds.mBuckets fk).getD emptyBucket) :=
        mapFind_mapIndex_self ds.mBuckets fk wf.sorted
      have hlen : ((mapFind ds.mBuckets fk).getD emptyBucket).length = 26 :=
        bucket_length_26 ds wf fk
      have hsk26 : sk < 26 := Nat.lt_succ_of_le (parse_sk_le it.id fk sk hp)
      have hchain : ds.chainAt fk sk
          = ((mapFind ds.mBuckets fk).getD emptyBucket).getD sk [] := rfl
      have hfind' : mapFind
            (mapSetChain (mapIndex ds.mBuckets fk) fk sk (it :: ds.chainAt fk sk)) fk
          = some (((mapFind ds.mBuckets fk).getD emptyBucket).set sk
              (it :: ds.chainAt fk sk)) :=
        mapFind_mapSetChain_self _ _ _ _ _ hfm
      have hnodup : ∀ e ∈ ds.chainAt fk sk, e.id ≠ it.id := by
        intro e he heq
        have := List.any_eq_false.mp hdup e he
        rw [heq] at this
        simp at this
      refine ⟨fk, sk, rfl, hnodup, ?_, ?_, ?_, ?_, ?_, ?_⟩
      · rw [DataStructure.chainAt, hfind']
        exact getD_set_self _ _ _ (by rw [hlen]; exact hsk26)
      · intro fk' sk' hne
        by_cases hfk : fk' = fk
        · subst hfk
          have hsk' : sk' ≠ sk := fun hs' => hne ⟨rfl, hs'⟩
          rw [DataStructure.chainAt, hfind']
          simp only [Option.getD_some]
          rw [getD_set_ne _ _ _ _ hsk']
          rfl
        · rw [DataStructure.chainAt, mapFind_mapSetChain_ne _ _ _ _ _ hfk,
            mapFind_mapIndex_ne _ _ _ hfk]
          rfl
      · have hc := count_mapSetChain (mapIndex ds.mBuckets fk) fk sk
          (it :: ds.chainAt fk sk) _ hfm (by rw [hlen]; exact hsk26)
        have hci : DataStructure.GetItemsNumber ⟨mapIndex ds.mBuckets fk⟩
            = DataStructure.GetItemsNumber ⟨ds.mBuckets⟩ := count_mapIndex ds.mBuckets fk
        rw [hchain] at hc ⊢
        simp only [List.length_cons] at hc
        have heta : DataStructure.GetItemsNumber ⟨ds.mBuckets⟩ = ds.GetItemsNumber := rfl
        omega
      · intro a ha
        rw [mapSetChain_keys]
        exact mapIndex_keys_superset ds.mBuckets fk ha
      · rw [hfind']
        simp
      · refine ⟨?_, ?_, ?_, ?_⟩
        · exact mapSetChain_sorted _ _ _ _ (mapIndex_sorted _ _ wf.sorted)
        · intro be hbe
          rcases mem_mapSetChain _ _ _ _ _ hbe with hbe | ⟨b, hb, rfl⟩
          · rcases mem_mapIndex _ _ _ hbe with rfl | hbe
            · exact emptyBucket_length
            · exact wf.blen _ hbe
          · rcases mem_mapIndex _ _ _ hb with heq | hb
            · rw [show b = emptyBucket from congrArg Prod.snd heq]
              simp [List.length_set, emptyBucket_length]
            · simp [List.length_set, wf.blen _ hb]
        · intro be hbe sk' x hx
          rcases mem_mapSetChain _ _ _ _ _ hbe with hbe | ⟨b, hb, rfl⟩
          · rcases mem_mapIndex _ _ _ hbe with rfl | hbe
            · rw [emptyBucket_getD] at hx
              simp at hx
            · exact wf.placed _ hbe sk' x hx
          · have hbB : b = (mapFind ds.mBuckets fk).getD emptyBucket := by
              have := mapFind_eq_of_mem (mapIndex ds.mBuckets fk) fk b
                (mapIndex_sorted _ _ wf.sorted) hb
              rw [this] at hfm
              exact Option.some.injEq .. ▸ hfm
            subst hbB
            by_cases hsk' : sk' = sk
            · subst hsk'
              rw [getD_set_self _ _ _ (by rw [hlen]; exact hsk26)] at hx
              rcases List.mem_cons.mp hx with rfl | hx
              · exact hp
              · exact chainAt_placed ds wf fk sk' x hx
            · rw [getD_set_ne _ _ _ _ hsk'] at hx
              exact chainAt_placed ds wf fk sk' x hx
        · intro be hbe sk'
          rcases mem_mapSetChain _ _ _ _ _ hbe with hbe | ⟨b, hb, rfl⟩
          · rcases mem_mapIndex _ _ _ hbe with rfl | hbe
            · rw [emptyBucket_getD]
              simp
            · exact wf.chainNodup _ hbe sk'
          · have hbB : b = (mapFind ds.mBuckets fk).getD emptyBucket := by
              have := mapFind_eq_of_mem (mapIndex ds.mBuckets fk) fk b
                (mapIndex_sorted _ _ wf.sorted) hb
              rw [this] at hfm
              exact Option.some.injEq .. ▸ hfm
            subst hbB
            by_cases hsk' : sk' = sk
            · subst hsk'
              rw [getD_set_self _ _ _ (by rw [hlen]; exact hsk26)]
              simp only [List.map_cons, List.nodup_cons]
              refine ⟨?_, chainAt_nodup ds wf fk sk'⟩
              intro hmem
              obtain ⟨e, he, heq⟩ := List.mem_map.mp hmem
              exact hnodup e he heq
            · rw [getD_set_ne _ _ _ _ hsk']
              exact chainAt_nodup ds wf fk sk'

/-! ### Case analysis of `operator-=` -/

theorem remove_fail_spec (ds : DataStructure) (id : Option CStr) (ds' : DataStructure)
    (e : DSError) (h : ds.removeItem id = (ds', some e)) : ds' = ds := by
  cases hp : tryParseItemIdentifier id with
  | none =>
    simp [DataStructure.removeItem, hp] at h
    exact h.1.symm
  | some p =>
    obtain ⟨fk, sk⟩ := p
    obtain ⟨s, rfl, -⟩ := parse_some_id_shape id fk sk hp
    cases hf : mapFind ds.mBuckets fk with
    | none =>
      simp [DataStructure.removeItem, hp, hf] at h
      exact h.1.symm
    | some b =>
      cases he : eraseFirstMatch (b.getD sk []) s with
      | none =>
        have he2 := he
        rw [List.getD_eq_getElem?_getD] at he2
        simp [DataStructure.removeItem, hp, hf, he2] at h
        exact h.1.symm
      | some chain =>
        have he2 := he
        rw [List.getD_eq_getElem?_getD] at he2
        simp [DataStructure.removeItem, hp, hf, he2] at h

theorem remove_ok_spec (ds : DataStructure) (id : Option CStr) (ds' : DataStructure)
    (wf : ds.WF) (h : ds.removeItem id = (ds', none)) :
    ∃ fk sk s pre x post,
      id = some s ∧ tryParseItemIdentifier id = some (fk, sk) ∧
      ds.chainAt fk sk = pre ++ x :: post ∧ x.id = some s ∧
      (∀ y ∈ pre, y.id ≠ some s) ∧ (∀ y ∈ post, y.id ≠ some s) ∧
      ds'.chainAt fk sk = pre ++ post ∧
      (∀ fk' sk', ¬(fk' = fk ∧ sk' = sk) → ds'.chainAt fk' sk' = ds.chainAt fk' sk') ∧
      ds'.mBuckets.map Prod.fst = ds.mBuckets.map Prod.fst ∧
      ds'.GetItemsNumber + 1 = ds.GetItemsNumber ∧
      ds'.WF := by
  cases hp : tryParseItemIdentifier id with
  | none =>
    rw [DataStructure.removeItem] at h
    simp [hp] at h
  | some p =>
    obtain ⟨fk, sk⟩ := p
    obtain ⟨s, rfl, -⟩ := parse_some_id_shape id fk sk hp
    cases hf : mapFind ds.mBuckets fk with
    | none =>
      rw [DataStructure.removeItem] at h
      simp [hp, hf] at h
    | some b =>
      cases he : eraseFirstMatch (b.getD sk []) s with
      | none =>
        have he2 := he
        rw [List.getD_eq_getElem?_getD] at he2
        rw [DataStructure.removeItem] at h
        simp [hp, hf, he2] at h
      | some chain =>
        have he2 := he
        rw [List.getD_eq_getElem?_getD] at he2
        have heq : ds.removeItem (some s) = (⟨mapSetChain ds.mBuckets fk sk chain⟩, none) := by
          simp [DataStructure.removeItem, hp, hf, he2]
        rw [heq] at h
        have hds' : ds' = ⟨mapSetChain ds.mBuckets fk sk chain⟩ :=
          (Prod.mk.injEq .. ▸ h).1.symm
        subst hds'
        have hmem : (fk, b) ∈ ds.mBuckets := mapFind_some_mem _ _ _ hf
        have hlen : b.length = 26 := by simpa using wf.blen _ hmem
        have hsk26 : sk < 26 := Nat.lt_succ_of_le (parse_sk_le _ fk sk hp)
        have hskb : sk < b.length := by rw [hlen]; exact hsk26
        have hchain : ds.chainAt fk sk = b.getD sk [] := by
          rw [DataStructure.chainAt, hf]
          rfl
        obtain ⟨pre, x, post, hdec, hc', hx, hpre⟩ := eraseFirstMatch_some_decomp _ _ _ he
        have hfind' : mapFind (mapSetChain ds.mBuckets fk sk chain) fk
            = some (b.set sk chain) := mapFind_mapSetChain_self _ _ _ _ _ hf
        have hpost : ∀ y ∈ post, y.id ≠ some s := by
          intro y hy heq
          have hnd := wf.chainNodup _ hmem sk
          rw [hdec] at hnd
          simp only [List.map_append, List.map_cons] at hnd
          have hsub : (x.id :: post.map Item.id).Sublist
              (pre.map Item.id ++ x.id :: post.map Item.id) :=
            List.sublist_append_right _ _
          have hnd2 := hsub.nodup hnd
          rw [List.nodup_cons] at hnd2
          exact hnd2.1 (hx ▸ heq ▸ List.mem_map_of_mem Item.id hy)
        refine ⟨fk, sk, s, pre, x, post, rfl, rfl, hchain.trans hdec, hx, hpre, hpost,
          ?_, ?_, ?_, ?_, ?_⟩
        · rw [DataStructure.chainAt, hfind']
          simp only [Option.getD_some]
          rw [getD_set_self _ _ _ hskb]
          exact hc'
        · intro fk' sk' hne
          by_cases hfk : fk' = fk
          · subst hfk
            have hsk' : sk' ≠ sk := fun hs' => hne ⟨rfl, hs'⟩
            rw [DataStructure.chainAt, hfind']
            simp only [Option.getD_some]
            rw [getD_set_ne _ _ _ _ hsk']
            rw [DataStructure.chainAt, hf]
            rfl
          · rw [DataStructure.chainAt, mapFind_mapSetChain_ne _ _ _ _ _ hfk]
            rfl
        · exact mapSetChain_keys _ _ _ _
        · have hc := count_mapSetChain ds.mBuckets fk sk chain b hf hskb
          have hlc : (b.getD sk []).length = chain.length + 1 := by
            rw [hdec, hc']
            simp
            omega
          have heta : DataStructure.GetItemsNumber ⟨ds.mBuckets⟩ = ds.GetItemsNumber := rfl
          omega
        · refine ⟨?_, ?_, ?_, ?_⟩
          · exact mapSetChain_sorted _ _ _ _ wf.sorted
          · intro be hbe
            rcases mem_mapSetChain _ _ _ _ _ hbe with hbe | ⟨b', hb', rfl⟩
            · exact wf.blen _ hbe
            · simp [List.length_set, wf.blen _ hb']
          · intro be hbe sk' y hy
            rcases mem_mapSetChain _ _ _ _ _ hbe with hbe | ⟨b', hb', rfl⟩
            · exact wf.placed _ hbe sk' y hy
            · have hbb : b' = b := by
                have := mapFind_eq_of_mem ds.mBuckets fk b' wf.sorted hb'
                rw [this] at hf
                exact Option.some.injEq .. ▸ hf
              subst hbb
              by_cases hsk' : sk' = sk
              · subst hsk'
                rw [getD_set_self _ _ _ hskb] at hy
                have hysub : y ∈ b'.getD sk' [] := by
                  rw [hdec]
                  rw [hc'] at hy
                  rcases List.mem_append.mp hy with hy | hy
                  · exact List.mem_append.mpr (Or.inl hy)
                  · exact List.mem_append.mpr (Or.inr (List.mem_cons_of_mem _ hy))
                exact wf.placed _ hb' sk' y hysub
              · rw [getD_set_ne _ _ _ _ hsk'] at hy
                exact wf.placed _ hb' sk' y hy
          · intro be hbe sk'
            rcases mem_mapSetChain _ _ _ _ _ hbe with hbe | ⟨b', hb', rfl⟩
            · exact wf.chainNodup _ hbe sk'
            · have hbb : b' = b := by
                have := mapFind_eq_of_mem ds.mBuckets fk b' wf.sorted hb'
                rw [this] at hf
                exact Option.some.injEq .. ▸ hf
              subst hbb
              by_cases hsk' : sk' = sk
              · subst hsk'
                rw [getD_set_self _ _ _ hskb]
                have hnd := wf.chainNodup _ hb' sk'
                have hsub : (chain.map Item.id).Sublist ((b'.getD sk' []).map Item.id) := by
                  rw [hdec, hc']
                  simp only [List.map_append, List.map_cons]
                  exact List.Sublist.append (List.Sublist.refl _)
                    (List.sublist_cons_self _ _)
                exact hsub.nodup hnd
              · rw [getD_set_ne _ _ _ _ hsk']
                exact wf.chainNodup _ hb' sk'

/-! ### The invariant holds in every reachable state -/

theorem reachable_wf (ds : DataStructure) (h : Reachable ds) : ds.WF := by
  induction h with
  | empty => exact wf_empty
  | insert ds it _ ih =>
    rcases he : ds.insertItem it with ⟨ds', e⟩
    cases e with
    | none =>
      obtain ⟨fk, sk, _, _, _, _, _, _, _, hwf⟩ := insert_ok_spec ds it ds' ih he
      exact hwf
    | some err =>
      have := insert_fail_spec ds it ds' err ih he
      rw [show (ds', some err).1 = ds' from rfl, this]
      exact ih
  | remove ds id _ ih =>
    rcases he : ds.removeItem id with ⟨ds', e⟩
    cases e with
    | none =>
      obtain ⟨fk, sk, s, pre, x, post, _, _, _, _, _, _, _, _, _, _, hwf⟩ :=
        remove_ok_spec ds id ds' ih he
      exact hwf
    | some err =>
      have := remove_fail_spec ds id ds' err he
      rw [show (ds', some err).1 = ds' from rfl, this]
      exact ih

/-! ### Enumeration: order and uniqueness -/

theorem getD_eq_getElem (b : Bucket) (i : Nat) (h : i < b.length) : b.getD i [] = b[i] := by
  rw [List.getD_eq_getElem?_getD, List.getElem?_eq_getElem h]
  rfl

theorem pairwise_of_mem_rel {α : Type} (R : α → α → Prop) (l : List α)
    (h : ∀ x ∈ l, ∀ y ∈ l, R x y) : l.Pairwise R := by
  induction l with
  | nil => simp
  | cons a t ih =>
    refine List.pairwise_cons.mpr ⟨fun y hy => h a (by simp) y (by simp [hy]), ih ?_⟩
    intro x hx y hy
    exact h x (by simp [hx]) y (by simp [hy])

theorem mem_bucket_flatten_placed (ds : DataStructure) (wf : ds.WF) (be : Char × Bucket)
    (hbe : be ∈ ds.mBuckets) (x : Item) (hx : x ∈ be.2.flatten) :
    ∃ sk, tryParseItemIdentifier x.id = some (be.1, sk) := by
  obtain ⟨c, hc, hxc⟩ := List.mem_flatten.mp hx
  obtain ⟨i, hi, rfl⟩ := List.mem_iff_getElem.mp hc
  exact ⟨i, wf.placed be hbe i x (by rw [getD_eq_getElem _ _ hi]; exact hxc)⟩

theorem wf_toList_sorted (ds : DataStructure) (wf : ds.WF) : ds.toList.Pairwise addrLE := by
  rw [DataStructure.toList]
  apply List.pairwise_flatten.mpr
  refine ⟨?_, ?_⟩
  · intro l hl
    obtain ⟨be, hbe, rfl⟩ := List.mem_map.mp hl
    apply List.pairwise_flatten.mpr
    refine ⟨?_, ?_⟩
    · intro c hc
      obtain ⟨i, hi, rfl⟩ := List.mem_iff_getElem.mp hc
      apply pairwise_of_mem_rel
      intro x hx y hy
      have hpx := wf.placed be hbe i x (by rw [getD_eq_getElem _ _ hi]; exact hx)
      have hpy := wf.placed be hbe i y (by rw [getD_eq_getElem _ _ hi]; exact hy)
      exact ⟨(be.1, i), (be.1, i), hpx, hpy, Or.inr ⟨rfl, le_refl _⟩⟩
    · apply List.pairwise_iff_getElem.mpr
      intro i j hi hj hij x hx y hy
      have hpx := wf.placed be hbe i x (by rw [getD_eq_getElem _ _ hi]; exact hx)
      have hpy := wf.placed be hbe j y (by rw [getD_eq_getElem _ _ hj]; exact hy)
      exact ⟨(be.1, i), (be.1, j), hpx, hpy, Or.inr ⟨rfl, le_of_lt hij⟩⟩
  · rw [List.pairwise_map]
    apply List.pairwise_iff_getElem.mpr
    intro i j hi hj hij x hx y hy
    have hbi : ds.mBuckets[i] ∈ ds.mBuckets := List.getElem_mem hi
    have hbj : ds.mBuckets[j] ∈ ds.mBuckets := List.getElem_mem hj
    have hlt : ds.mBuckets[i].1 < ds.mBuckets[j].1 :=
      List.pairwise_iff_getElem.mp wf.sorted i j hi hj hij
    obtain ⟨skx, hpx⟩ := mem_bucket_flatten_placed ds wf _ hbi x hx
    obtain ⟨sky, hpy⟩ := mem_bucket_flatten_placed ds wf _ hbj y hy
    exact ⟨_, _, hpx, hpy, Or.inl hlt⟩

theorem wf_toList_distinct (ds : DataStructure) (wf : ds.WF) :
    ds.toList.Pairwise (fun a b => a.id ≠ b.id) := by
  rw [DataStructure.toList]
  apply List.pairwise_flatten.mpr
  refine ⟨?_, ?_⟩
  · intro l hl
    obtain ⟨be, hbe, rfl⟩ := List.mem_map.mp hl
    apply List.pairwise_flatten.mpr
    refine ⟨?_, ?_⟩
    · intro c hc
      obtain ⟨i, hi, rfl⟩ := List.mem_iff_getElem.mp hc
      have hnd := wf.chainNodup be hbe i
      rw [getD_eq_getElem _ _ hi] at hnd
      exact List.pairwise_map.mp hnd
    · apply List.pairwise_iff_getElem.mpr
      intro i j hi hj hij x hx y hy heq
      have hpx := wf.placed be hbe i x (by rw [getD_eq_getElem _ _ hi]; exact hx)
      have hpy := wf.placed be hbe j y (by rw [getD_eq_getElem _ _ hj]; exact hy)
      rw [heq, hpy] at hpx
      have : i = j := by
        have := (Option.some.injEq .. ▸ hpx)
        exact (Prod.mk.injEq .. ▸ this).2.symm
      omega
  · rw [List.pairwise_map]
    apply List.pairwise_iff_getElem.mpr
    intro i j hi hj hij x hx y hy heq
    have hbi : ds.mBuckets[i] ∈ ds.mBuckets := List.getElem_mem hi
    have hbj : ds.mBuckets[j] ∈ ds.mBuckets := List.getElem_mem hj
    have hlt : ds.mBuckets[i].1 < ds.mBuckets[j].1 :=
      List.pairwise_iff_getElem.mp wf.sorted i j hi hj hij
    obtain ⟨skx, hpx⟩ := mem_bucket_flatten_placed ds wf _ hbi x hx
    obtain ⟨sky, hpy⟩ := mem_bucket_flatten_placed ds wf _ hbj y hy
    rw [heq, hpy] at hpx
    have : ds.mBuckets[j].1 = ds.mBuckets[i].1 := by
      have := (Option.some.injEq .. ▸ hpx)
      exact (Prod.mk.injEq .. ▸ this).1
    exact absurd hlt (by rw [this]; exact lt_irrefl _)

theorem wf_toList_id_nodup (ds : DataStructure) (wf : ds.WF) :
    (ds.toList.map Item.id).Nodup :=
  List.pairwise_map.mpr (wf_toList_distinct ds wf)

theorem mem_toList_decomp (ds : DataStructure) (j : Item) (hj : j ∈ ds.toList) :
    ∃ be ∈ ds.mBuckets, ∃ i, i < be.2.length ∧ j ∈ be.2.getD i [] := by
  rw [DataStructure.toList] at hj
  obtain ⟨l, hl, hjl⟩ := List.mem_flatten.mp hj
  obtain ⟨be, hbe, rfl⟩ := List.mem_map.mp hl
  obtain ⟨c, hc, hjc⟩ := List.mem_flatten.mp hjl
  obtain ⟨i, hi, rfl⟩ := List.mem_iff_getElem.mp hc
  exact ⟨be, hbe, i, hi, by rw [getD_eq_getElem _ _ hi]; exact hjc⟩

theorem chainAt_of_mem (ds : DataStructure) (wf : ds.WF) (be : Char × Bucket)
    (hbe : be ∈ ds.mBuckets) (i : Nat) : ds.chainAt be.1 i = be.2.getD i [] := by
  rw [DataStructure.chainAt, mapFind_eq_of_mem _ _ _ wf.sorted hbe]
  rfl

theorem insert_present_dup (ds : DataStructure) (it : Item) (wf : ds.WF) (j : Item)
    (hj : j ∈ ds.toList) (hid : j.id = it.id) :
    ds.insertItem it = (ds, some .duplicateId) := by
  obtain ⟨be, hbe, i, hi, hjc⟩ := mem_toList_decomp ds j hj
  have hpj : tryParseItemIdentifier j.id = some (be.1, i) := wf.placed be hbe i j hjc
  have hpi : tryParseItemIdentifier it.id = some (be.1, i) := hid ▸ hpj
  apply insert_dup_eq ds it be.1 i wf.sorted hpi
  apply List.any_eq_true.mpr
  refine ⟨j, ?_, by rw [hid]; simp⟩
  rw [chainAt_of_mem ds wf be hbe i]
  exact hjc

theorem count_eq_len_aux (m : List (Char × Bucket)) :
    DataStructure.GetItemsNumber ⟨m⟩ = (DataStructure.toList ⟨m⟩).length := by
  induction m with
  | nil => rfl
  | cons hd rest ih =>
    simp only [DataStructure.GetItemsNumber, DataStructure.toList, List.map_cons,
      List.sum_cons, List.flatten_cons, List.length_append, List.length_flatten] at *
    omega

theorem GetItemsNumber_eq_length (ds : DataStructure) :
    ds.GetItemsNumber = ds.toList.length := count_eq_len_aux ds.mBuckets

/-! ### Run-level lemmas -/

theorem runOps_spec (ops : List Op) : ∀ ds : DataStructure, ds.WF →
    (runOps ds ops).WF ∧
    (runOps ds ops).GetItemsNumber + (succCounts ds ops).2
      = ds.GetItemsNumber + (succCounts ds ops).1 := by
  induction ops with
  | nil =>
    intro ds wf
    exact ⟨wf, by simp [runOps, succCounts]⟩
  | cons op rest ih =>
    intro ds wf
    rcases ha : applyOp ds op with ⟨ds1, e⟩
    have hrun : runOps ds (op :: rest) = runOps ds1 rest := by
      simp [runOps, ha]
    cases op with
    | ins it =>
      cases e with
      | none =>
        obtain ⟨fk, sk, _, _, _, _, hcount, _, _, hwf1⟩ := insert_ok_spec ds it ds1 wf ha
        obtain ⟨hwfr, hcr⟩ := ih ds1 hwf1
        refine ⟨by rw [hrun]; exact hwfr, ?_⟩
        have hsucc : succCounts ds (Op.ins it :: rest)
            = ((succCounts ds1 rest).1 + 1, (succCounts ds1 rest).2) := by
          simp [succCounts, ha]
        rw [hrun, hsucc]
        omega
      | some err =>
        have hds1 : ds1 = ds := insert_fail_spec ds it ds1 err wf ha
        subst hds1
        obtain ⟨hwfr, hcr⟩ := ih ds1 wf
        refine ⟨by rw [hrun]; exact hwfr, ?_⟩
        have hsucc : succCounts ds1 (Op.ins it :: rest) = succCounts ds1 rest := by
          simp [succCounts, ha]
        rw [hrun, hsucc]
        exact hcr
    | del id =>
      cases e with
      | none =>
        obtain ⟨fk, sk, s, pre, x, post, _, _, _, _, _, _, _, _, _, hcount, hwf1⟩ :=
          remove_ok_spec ds id ds1 wf ha
        obtain ⟨hwfr, hcr⟩ := ih ds1 hwf1
        refine ⟨by rw [hrun]; exact hwfr, ?_⟩
        have hsucc : succCounts ds (Op.del id :: rest)
            = ((succCounts ds1 rest).1, (succCounts ds1 rest).2 + 1) := by
          simp [succCounts, ha]
        rw [hrun, hsucc]
        omega
      | some err =>
        have hds1 : ds1 = ds := remove_fail_spec ds id ds1 err ha
        subst hds1
        obtain ⟨hwfr, hcr⟩ := ih ds1 wf
        refine ⟨by rw [hrun]; exact hwfr, ?_⟩
        have hsucc : succCounts ds1 (Op.del id :: rest) = succCounts ds1 rest := by
          simp [succCounts, ha]
        rw [hrun, hsucc]
        exact hcr

theorem remove_keys (ds : DataStructure) (id : Option CStr) :
    ((ds.removeItem id).1).mBuckets.map Prod.fst = ds.mBuckets.map Prod.fst := by
  cases hp : tryParseItemIdentifier id with
  | none => simp [DataStructure.removeItem, hp]
  | some p =>
    obtain ⟨fk, sk⟩ := p
    obtain ⟨s, rfl, -⟩ := parse_some_id_shape id fk sk hp
    cases hf : mapFind ds.mBuckets fk with
    | none => simp [DataStructure.removeItem, hp, hf]
    | some b =>
      cases he : eraseFirstMatch (b.getD sk []) s with
      | none =>
        have he2 := he
        rw [List.getD_eq_getElem?_getD] at he2
        simp [DataStructure.removeItem, hp, hf, he2]
      | some chain =>
        have he2 := he
        rw [List.getD_eq_getElem?_getD] at he2
        simp [DataStructure.removeItem, hp, hf, he2, mapSetChain_keys]

theorem insert_keys_superset (ds : DataStructure) (it : Item) :
    ∀ a ∈ ds.mBuckets.map Prod.fst, a ∈ ((ds.insertItem it).1).mBuckets.map Prod.fst := by
  intro a ha
  cases hp : tryParseItemIdentifier it.id with
  | none => simpa [DataStructure.insertItem, hp] using ha
  | some p =>
    obtain ⟨fk, sk⟩ := p
    simp only [DataStructure.insertItem, hp]
    split
    · simpa using mapIndex_keys_superset ds.mBuckets fk ha
    · rw [mapSetChain_keys]
      exact mapIndex_keys_superset ds.mBuckets fk ha

theorem runOps_keys_superset (ops : List Op) : ∀ ds : DataStructure,
    ∀ a ∈ ds.mBuckets.map Prod.fst, a ∈ (runOps ds ops).mBuckets.map Prod.fst := by
  induction ops with
  | nil => intro ds a ha; simpa [runOps] using ha
  | cons op rest ih =>
    intro ds a ha
    show a ∈ (runOps (applyOp ds op).1 rest).mBuckets.map Prod.fst
    cases op with
    | ins it => exact ih _ a (insert_keys_superset ds it a ha)
    | del id => exact ih _ a (by rw [show (applyOp ds (Op.del id)).1
        = (ds.removeItem id).1 from rfl, remove_keys]; exact ha)

theorem find?_some_decomp (p : Item → Bool) (l : List Item) (x : Item)
    (h : l.find? p = some x) :
    ∃ pre post, l = pre ++ x :: post ∧ p x = true ∧ ∀ y ∈ pre, p y = false := by
  induction l with
  | nil => simp at h
  | cons a t ih =>
    by_cases hp : p a = true
    · rw [List.find?_cons_of_pos _ hp] at h
      obtain rfl : a = x := Option.some.injEq .. ▸ h
      exact ⟨[], t, rfl, hp, by simp⟩
    · rw [List.find?_cons_of_neg _ hp] at h
      obtain ⟨pre, post, hl, hx, hpre⟩ := ih h
      refine ⟨a :: pre, post, by rw [hl]; rfl, hx, ?_⟩
      intro y hy
      rcases List.mem_cons.mp hy with rfl | hy
      · exact Bool.eq_false_iff.mpr hp
      · exact hpre y hy

/-! ### Claim theorems -/

/-- C1: the parser fails exactly when the string is absent or empty, its
first character is not A-Z, it has no space, the first space is the last
character, or the character after the first space is not A-Z; on success it
returns the first character and the letter index (0-25) of the character
after the first space; and the spec's boundary examples evaluate as
stated. -/
theorem C1_parser_correct :
    tryParseItemIdentifier none = none
    ∧ (∀ s : CStr, tryParseItemIdentifier (some s) = none ↔
        s = []
        ∨ (∃ c t, s = c :: t ∧ ¬(FIRST_VALID_LETTER ≤ c ∧ c ≤ LAST_VALID_LETTER))
        ∨ WORD_SEPARATOR ∉ s
        ∨ (∃ p, s = p ++ [WORD_SEPARATOR] ∧ WORD_SEPARATOR ∉ p)
        ∨ (∃ p d u, s = p ++ WORD_SEPARATOR :: d :: u ∧ WORD_SEPARATOR ∉ p
            ∧ ¬(FIRST_VALID_LETTER ≤ d ∧ d ≤ LAST_VALID_LETTER)))
    ∧ (∀ s fk sk, tryParseItemIdentifier (some s) = some (fk, sk) →
        s.head? = some fk ∧
        (∃ p d u, s = p ++ WORD_SEPARATOR :: d :: u ∧ WORD_SEPARATOR ∉ p ∧
          sk = d.toNat - FIRST_VALID_LETTER.toNat) ∧ sk ≤ 25)
    ∧ tryParseItemIdentifier (some "Cafe Noir".data) = some ('C', 13)
    ∧ tryParseItemIdentifier (some "cafe Noir".data) = none
    ∧ tryParseItemIdentifier (some "Cafe noir".data) = none
    ∧ tryParseItemIdentifier (some "Cafe".data) = none
    ∧ tryParseItemIdentifier (some "Cafe ".data) = none := by
  refine ⟨rfl, parse_fail_iff, ?_, by decide, by decide, by decide, by decide, by decide⟩
  intro s fk sk h
  obtain ⟨h1, -, -, p, d, u, hdecomp, hpn, -, -, hsk, hle⟩ := parse_some_spec s fk sk h
  exact ⟨h1, ⟨p, d, u, hdecomp, hpn, hsk⟩, hle⟩

/-- Witness for C1 at the concrete input `"Cafe Noir"`. -/
theorem C1_parser_correct_witness :
    ("Cafe Noir".data).head? = some 'C' ∧
    (∃ p d u, "Cafe Noir".data = p ++ WORD_SEPARATOR :: d :: u ∧ WORD_SEPARATOR ∉ p ∧
      13 = d.toNat - FIRST_VALID_LETTER.toNat) ∧ (13 : Nat) ≤ 25 :=
  C1_parser_correct.2.2.1 "Cafe Noir".data 'C' 13 (by decide)

/-- C2: in every reachable container no two stored records have equal
identifiers, and inserting a record whose identifier is already present
fails with the duplicate error and leaves the state (hence the count)
unchanged. -/
theorem C2_uniqueness (ds : DataStructure) (h : Reachable ds) :
    (ds.toList.map Item.id).Nodup ∧
    ds.toList.Pairwise (fun a b => a.id ≠ b.id) ∧
    (∀ it j, j ∈ ds.toList → j.id = it.id →
      ds.insertItem it = (ds, some .duplicateId) ∧
      ((ds.insertItem it).1).GetItemsNumber = ds.GetItemsNumber) := by
  have wf := reachable_wf ds h
  refine ⟨wf_toList_id_nodup ds wf, wf_toList_distinct ds wf, ?_⟩
  intro it j hj hid
  have hdup := insert_present_dup ds it wf j hj hid
  exact ⟨hdup, by rw [hdup]⟩

/-- Witness for C2: a second insert of `"Cafe Noir"` fails with the
duplicate error and returns the unchanged container. -/
theorem C2_uniqueness_witness :
    ((DataStructure.empty.insertItem itemCafeNoir).1).insertItem itemCafeNoir
      = ((DataStructure.empty.insertItem itemCafeNoir).1, some .duplicateId) :=
  ((C2_uniqueness _ (Reachable.insert _ _ Reachable.empty)).2.2 itemCafeNoir itemCafeNoir
    (by decide) rfl).1

/-- C3: every failing insert or remove returns exactly the prior state
(count, lookups and enumeration unchanged), and a successful insert
increases the count by exactly one. -/
theorem C3_failure_atomic (ds : DataStructure) (h : Reachable ds) :
    (∀ it ds' e, ds.insertItem it = (ds', some e) →
      ds' = ds ∧ ds'.GetItemsNumber = ds.GetItemsNumber ∧
      (∀ q, ds'.GetItem q = ds.GetItem q) ∧ ds'.toList = ds.toList) ∧
    (∀ id ds' e, ds.removeItem id = (ds', some e) →
      ds' = ds ∧ ds'.GetItemsNumber = ds.GetItemsNumber ∧
      (∀ q, ds'.GetItem q = ds.GetItem q) ∧ ds'.toList = ds.toList) ∧
    (∀ it ds', ds.insertItem it = (ds', none) →
      ds'.GetItemsNumber = ds.GetItemsNumber + 1) := by
  have wf := reachable_wf ds h
  refine ⟨?_, ?_, ?_⟩
  · intro it ds' e he
    have hd := insert_fail_spec ds it ds' e wf he
    subst hd
    exact ⟨rfl, rfl, fun q => rfl, rfl⟩
  · intro id ds' e he
    have hd := remove_fail_spec ds id ds' e he
    subst hd
    exact ⟨rfl, rfl, fun q => rfl, rfl⟩
  · intro it ds' he
    obtain ⟨fk, sk, -, -, -, -, hc, -, -, -⟩ := insert_ok_spec ds it ds' wf he
    exact hc

/-- Witness for C3: one successful insert into the empty container raises
the count from 0 to 1. -/
theorem C3_failure_atomic_witness :
    ((DataStructure.empty.insertItem itemCafeNoir).1).GetItemsNumber
      = DataStructure.empty.GetItemsNumber + 1 :=
  (C3_failure_atomic DataStructure.empty Reachable.empty).2.2 itemCafeNoir
    (DataStructure.empty.insertItem itemCafeNoir).1 (by decide)

/-- C4: from the empty container, after any interleaved operation sequence
with n successful inserts and m successful removes the count is n - m
(m never exceeds n), and the count always equals the number of records
enumerated across every chain of every bucket. -/
theorem C4_count (ops : List Op) :
    (runOps DataStructure.empty ops).GetItemsNumber + (succCounts DataStructure.empty ops).2
      = (succCounts DataStructure.empty ops).1
    ∧ (succCounts DataStructure.empty ops).2 ≤ (succCounts DataStructure.empty ops).1
    ∧ (runOps DataStructure.empty ops).GetItemsNumber
      = (succCounts DataStructure.empty ops).1 - (succCounts DataStructure.empty ops).2
    ∧ ∀ ds : DataStructure, ds.GetItemsNumber = ds.toList.length := by
  have h := (runOps_spec ops DataStructure.empty wf_empty).2
  have h0 : DataStructure.empty.GetItemsNumber = 0 := rfl
  exact ⟨by omega, by omega, by omega, GetItemsNumber_eq_length⟩

/-- C5: after a successful insert, looking the identifier up returns the
inserted record, and after removing that identifier the lookup returns
not-found. -/
theorem C5_roundtrip (ds : DataStructure) (h : Reachable ds) (it : Item)
    (ds₁ : DataStructure) (hins : ds.insertItem it = (ds₁, none)) :
    ds₁.GetItem it.id = some it ∧
    ∃ ds₂, ds₁.removeItem it.id = (ds₂, none) ∧ ds₂.GetItem it.id = none := by
  have wf := reachable_wf ds h
  obtain ⟨fk, sk, hp, hnodup, hcons, hframe, hcnt, hkeys, hfindne, hwf1⟩ :=
    insert_ok_spec ds it ds₁ wf hins
  have hsk26 : sk < 26 := Nat.lt_succ_of_le (parse_sk_le it.id fk sk hp)
  have hget : ds₁.GetItem it.id = some it := by
    rw [GetItem_eq_find ds₁ it.id fk sk hp hfindne, hcons]
    apply List.find?_cons_of_pos
    simp
  obtain ⟨b₁, hb₁⟩ : ∃ b₁, mapFind ds₁.mBuckets fk = some b₁ := by
    cases hb : mapFind ds₁.mBuckets fk with
    | none => exact absurd hb hfindne
    | some b => exact ⟨b, rfl⟩
  obtain ⟨s, hideq, -⟩ := parse_some_id_shape it.id fk sk hp
  have hb₁chain : b₁.getD sk [] = it :: ds.chainAt fk sk := by
    have hc : ds₁.chainAt fk sk = b₁.getD sk [] := by
      rw [DataStructure.chainAt, hb₁]
      rfl
    rw [← hc, hcons]
  have herase : eraseFirstMatch (b₁.getD sk []) s = some (ds.chainAt fk sk) := by
    rw [hb₁chain]
    simp [eraseFirstMatch, hideq]
  have hrm : ds₁.removeItem it.id
      = (⟨mapSetChain ds₁.mBuckets fk sk (ds.chainAt fk sk)⟩, none) := by
    have hp' : tryParseItemIdentifier (some s) = some (fk, sk) := hideq ▸ hp
    have he2 := herase
    rw [List.getD_eq_getElem?_getD] at he2
    rw [hideq]
    simp [DataStructure.removeItem, hp', hb₁, he2]
  have hb₂ : mapFind (mapSetChain ds₁.mBuckets fk sk (ds.chainAt fk sk)) fk
      = some (b₁.set sk (ds.chainAt fk sk)) := mapFind_mapSetChain_self _ _ _ _ _ hb₁
  have hlen₁ : b₁.length = 26 := by
    simpa using hwf1.blen _ (mapFind_some_mem _ _ _ hb₁)
  have hchain₂ : DataStructure.chainAt ⟨mapSetChain ds₁.mBuckets fk sk (ds.chainAt fk sk)⟩
      fk sk = ds.chainAt fk sk := by
    rw [DataStructure.chainAt, hb₂]
    simp only [Option.getD_some]
    exact getD_set_self _ _ _ (by rw [hlen₁]; exact hsk26)
  refine ⟨hget, ⟨_, hrm, ?_⟩⟩
  rw [GetItem_eq_find _ it.id fk sk hp (by rw [hb₂]; simp), hchain₂]
  apply List.find?_eq_none.mpr
  intro x hx
  simp only [beq_iff_eq]
  exact hnodup x hx

/-- Witness for C5 with the concrete record `"Cafe Noir"`. -/
theorem C5_roundtrip_witness :
    ((DataStructure.empty.insertItem itemCafeNoir).1).GetItem itemCafeNoir.id
      = some itemCafeNoir ∧
    ∃ ds₂, ((DataStructure.empty.insertItem itemCafeNoir).1).removeItem itemCafeNoir.id
      = (ds₂, none) ∧ ds₂.GetItem itemCafeNoir.id = none :=
  C5_roundtrip DataStructure.empty Reachable.empty itemCafeNoir
    (DataStructure.empty.insertItem itemCafeNoir).1 (by decide)

/-- C6: enumeration respects the address order (buckets by ascending first
key, chains by ascending second key), yields each stored record once
(identifiers are pairwise distinct), a successful insert places the record
at the front of its chain, and the spec's two ordering examples hold. -/
theorem C6_enumeration :
    (∀ ds : DataStructure, Reachable ds →
      ds.toList.Pairwise addrLE ∧ (ds.toList.map Item.id).Nodup)
    ∧ (∀ (ds : DataStructure) (it : Item) (ds' : DataStructure), Reachable ds →
        ds.insertItem it = (ds', none) →
        ∃ fk sk, tryParseItemIdentifier it.id = some (fk, sk) ∧
          ds'.chainAt fk sk = it :: ds.chainAt fk sk)
    ∧ (runOps DataStructure.empty [Op.ins itemBetaZed, Op.ins itemAlphaYoung,
        Op.ins itemAlphaApple]).toList = [itemAlphaApple, itemAlphaYoung, itemBetaZed]
    ∧ (runOps DataStructure.empty [Op.ins itemAlphaYoung, Op.ins itemAlphaYellow]).toList
      = [itemAlphaYellow, itemAlphaYoung]
    ∧ (runOps DataStructure.empty [Op.ins itemAlphaYoung, Op.ins itemAlphaYellow]).chainAt
        'A' 24 = [itemAlphaYellow, itemAlphaYoung] := by
  refine ⟨?_, ?_, by decide, by decide, by decide⟩
  · intro ds h
    have wf := reachable_wf ds h
    exact ⟨wf_toList_sorted ds wf, wf_toList_id_nodup ds wf⟩
  · intro ds it ds' h hins
    obtain ⟨fk, sk, hp, -, hcons, -⟩ := insert_ok_spec ds it ds' (reachable_wf ds h) hins
    exact ⟨fk, sk, hp, hcons⟩

/-- Witness for C6: the empty container enumerates in order, and the
concrete insert of `"Cafe Noir"` lands at the front of its chain. -/
theorem C6_enumeration_witness :
    (DataStructure.empty.toList).Pairwise addrLE ∧ ∃ fk sk,
      tryParseItemIdentifier itemCafeNoir.id = some (fk, sk) ∧
      ((DataStructure.empty.insertItem itemCafeNoir).1).chainAt fk sk
        = itemCafeNoir :: DataStructure.empty.chainAt fk sk :=
  ⟨(C6_enumeration.1 DataStructure.empty Reachable.empty).1,
   C6_enumeration.2.1 DataStructure.empty itemCafeNoir
     (DataStructure.empty.insertItem itemCafeNoir).1 Reachable.empty (by decide)⟩

/-- C7: lookup is a pure function that returns not-found when the
identifier fails to parse or when no bucket exists for its first key, and
otherwise returns the first byte-for-byte match of the addressed chain (or
not-found when the chain has no match). -/
theorem C7_lookup (ds : DataStructure) (id : Option CStr) :
    (tryParseItemIdentifier id = none → ds.GetItem id = none)
    ∧ (∀ fk sk, tryParseItemIdentifier id = some (fk, sk) →
        mapFind ds.mBuckets fk = none → ds.GetItem id = none)
    ∧ (∀ fk sk b, tryParseItemIdentifier id = some (fk, sk) →
        mapFind ds.mBuckets fk = some b →
        ((ds.GetItem id = none ∧ ∀ x ∈ b.getD sk [], x.id ≠ id)
         ∨ (∃ x pre post, ds.GetItem id = some x ∧ b.getD sk [] = pre ++ x :: post
             ∧ x.id = id ∧ ∀ y ∈ pre, y.id ≠ id))) := by
  refine ⟨?_, ?_, ?_⟩
  · intro h
    simp [DataStructure.GetItem, h]
  · intro fk sk hp hf
    simp [DataStructure.GetItem, hp, hf]
  · intro fk sk b hp hf
    have hget : ds.GetItem id
        = (b.getD sk []).find? (fun c => c.id == id) := by
      simp only [DataStructure.GetItem, hp, hf]
    cases hfind : (b.getD sk []).find? (fun c => c.id == id) with
    | none =>
      left
      refine ⟨by rw [hget, hfind], ?_⟩
      intro x hx
      have := List.find?_eq_none.mp hfind x hx
      simpa using this
    | some x =>
      right
      obtain ⟨pre, post, hdec, hx, hpre⟩ := find?_some_decomp _ _ _ hfind
      refine ⟨x, pre, post, by rw [hget, hfind], hdec, by simpa using hx, ?_⟩
      intro y hy
      have := hpre y hy
      simpa using this

/-- Witness for C7: a malformed identifier and an absent record both read
as not-found on a concrete container, and the match case applies at the
chain holding `"Cafe Noir"`. -/
theorem C7_lookup_witness :
    DataStructure.empty.GetItem none = none ∧
    ((((DataStructure.empty.insertItem itemCafeNoir).1).GetItem
        (some "Cafe Noir".data) = none ∧
      ∀ x ∈ (emptyBucket.set 13 [itemCafeNoir]).getD 13 [],
        x.id ≠ some "Cafe Noir".data)
    ∨ (∃ x pre post,
        ((DataStructure.empty.insertItem itemCafeNoir).1).GetItem
          (some "Cafe Noir".data) = some x ∧
        (emptyBucket.set 13 [itemCafeNoir]).getD 13 [] = pre ++ x :: post ∧
        x.id = some "Cafe Noir".data ∧ ∀ y ∈ pre, y.id ≠ some "Cafe Noir".data)) := by
  refine ⟨(C7_lookup DataStructure.empty none).1 rfl, ?_⟩
  exact (C7_lookup (DataStructure.empty.insertItem itemCafeNoir).1
    (some "Cafe Noir".data)).2.2 'C' 13 (emptyBucket.set 13 [itemCafeNoir])
    (by decide) (by decide)

/-- C8: a successful remove deletes exactly the one matching record from
its chain, preserves the relative order of the rest of that chain, leaves
every other chain untouched, and removes no bucket. -/
theorem C8_remove_frame (ds : DataStructure) (id : Option CStr) (ds' : DataStructure)
    (h : Reachable ds) (hrm : ds.removeItem id = (ds', none)) :
    ∃ fk sk s pre x post,
      id = some s ∧ tryParseItemIdentifier id = some (fk, sk) ∧
      ds.chainAt fk sk = pre ++ x :: post ∧ x.id = some s ∧
      (∀ y ∈ pre, y.id ≠ some s) ∧ (∀ y ∈ post, y.id ≠ some s) ∧
      ds'.chainAt fk sk = pre ++ post ∧
      (∀ fk' sk', ¬(fk' = fk ∧ sk' = sk) → ds'.chainAt fk' sk' = ds.chainAt fk' sk') ∧
      ds'.mBuckets.map Prod.fst = ds.mBuckets.map Prod.fst := by
  obtain ⟨fk, sk, s, pre, x, post, h1, h2, h3, h4, h5, h6, h7, h8, h9, -, -⟩ :=
    remove_ok_spec ds id ds' (reachable_wf ds h) hrm
  exact ⟨fk, sk, s, pre, x, post, h1, h2, h3, h4, h5, h6, h7, h8, h9⟩

/-- Witness for C8: removing `"Cafe Noir"` from the one-record container. -/
theorem C8_remove_frame_witness :
    ∃ fk sk s pre x post,
      (some "Cafe Noir".data : Option CStr) = some s ∧
      tryParseItemIdentifier (some "Cafe Noir".data) = some (fk, sk) ∧
      ((DataStructure.empty.insertItem itemCafeNoir).1).chainAt fk sk = pre ++ x :: post ∧
      x.id = some s ∧ (∀ y ∈ pre, y.id ≠ some s) ∧ (∀ y ∈ post, y.id ≠ some s) ∧
      (((DataStructure.empty.insertItem itemCafeNoir).1).removeItem
          (some "Cafe Noir".data)).1.chainAt fk sk = pre ++ post ∧
      (∀ fk' sk', ¬(fk' = fk ∧ sk' = sk) →
        (((DataStructure.empty.insertItem itemCafeNoir).1).removeItem
            (some "Cafe Noir".data)).1.chainAt fk' sk'
          = ((DataStructure.empty.insertItem itemCafeNoir).1).chainAt fk' sk') ∧
      (((DataStructure.empty.insertItem itemCafeNoir).1).removeItem
          (some "Cafe Noir".data)).1.mBuckets.map Prod.fst
        = ((DataStructure.empty.insertItem itemCafeNoir).1).mBuckets.map Prod.fst :=
  C8_remove_frame (DataStructure.empty.insertItem itemCafeNoir).1
    (some "Cafe Noir".data)
    (((DataStructure.empty.insertItem itemCafeNoir).1).removeItem
      (some "Cafe Noir".data)).1
    (Reachable.insert _ _ Reachable.empty) (by decide)

/-- C9: removal never prunes structure: removing preserves the exact key
set of the bucket map, a key present before any operation sequence is
still present after it, and emptying the only record of bucket 'C' leaves
the bucket present with 26 empty chains. -/
theorem C9_no_pruning :
    (∀ (ds : DataStructure) (id : Option CStr),
      ((ds.removeItem id).1).mBuckets.map Prod.fst = ds.mBuckets.map Prod.fst)
    ∧ (∀ (ds : DataStructure) (it : Item), ∀ a ∈ ds.mBuckets.map Prod.fst,
        a ∈ ((ds.insertItem it).1).mBuckets.map Prod.fst)
    ∧ (∀ (ops : List Op) (ds : DataStructure), ∀ a ∈ ds.mBuckets.map Prod.fst,
        a ∈ (runOps ds ops).mBuckets.map Prod.fst)
    ∧ (((DataStructure.empty.insertItem itemCafeNoir).1.removeItem
        (some "Cafe Noir".data)).1).mBuckets = [('C', emptyBucket)] :=
  ⟨remove_keys, insert_keys_superset, fun ops ds => runOps_keys_superset ops ds, by decide⟩

/-- Witness for C9: the key 'C', populated by one insert, survives the
remove that empties its bucket. -/
theorem C9_no_pruning_witness :
    'C' ∈ (runOps (DataStructure.empty.insertItem itemCafeNoir).1
        [Op.del (some "Cafe Noir".data)]).mBuckets.map Prod.fst :=
  C9_no_pruning.2.2.1 [Op.del (some "Cafe Noir".data)]
    (DataStructure.empty.insertItem itemCafeNoir).1 'C' (by decide)

/-- C10: in every reachable state, every stored record's identifier parses
successfully (so it is neither null nor empty) and the record resides in
exactly the chain addressed by parsing its own identifier. -/
theorem C10_placement (ds : DataStructure) (h : Reachable ds) :
    (∀ be ∈ ds.mBuckets, ∀ sk : Nat, ∀ x ∈ be.2.getD sk [],
      tryParseItemIdentifier x.id = some (be.1, sk))
    ∧ (∀ x ∈ ds.toList, ∃ fk sk, tryParseItemIdentifier x.id = some (fk, sk) ∧
        x.id ≠ none ∧ x.id ≠ some [] ∧ x ∈ ds.chainAt fk sk) := by
  have wf := reachable_wf ds h
  refine ⟨wf.placed, ?_⟩
  intro x hx
  obtain ⟨be, hbe, i, hi, hxc⟩ := mem_toList_decomp ds x hx
  have hp := wf.placed be hbe i x hxc
  obtain ⟨s, hs, hsne⟩ := parse_some_id_shape x.id be.1 i hp
  refine ⟨be.1, i, hp, by rw [hs]; simp, by rw [hs]; simp [hsne], ?_⟩
  rw [chainAt_of_mem ds wf be hbe i]
  exact hxc

/-- Witness for C10 on the container holding only `"Cafe Noir"`. -/
theorem C10_placement_witness :
    ∃ fk sk, tryParseItemIdentifier itemCafeNoir.id = some (fk, sk) ∧
      itemCafeNoir.id ≠ none ∧ itemCafeNoir.id ≠ some [] ∧
      itemCafeNoir ∈ ((DataStructure.empty.insertItem itemCafeNoir).1).chainAt fk sk :=
  (C10_placement _ (Reachable.insert _ _ Reachable.empty)).2 itemCafeNoir (by decide)
